import Mathlib

/-!
Verification of the folder-hierarchy core of the image-folder backend.

The definitions below are a shallow embedding of the Express route handlers in
`routes/folders.js` and `routes/trash.js`, together with the Mongoose data
model of `models/Folder.js` / `models/Image.js`.  JavaScript strings are
embedded as lists of characters; MongoDB collections as Lean lists in
insertion order; `findOne` as `List.find?`, `updateMany` as `List.map` guarded
by the query condition, `deleteMany` as `List.filter`, `findOneAndUpdate` as
an update of the first matching element and `deleteOne` as removal of the
first matching element.  The handlers interpolate a stored path into a Mongo
query `path: {$regex: "^" + p}` without escaping; the embedding reads that
pattern as the literal character-prefix test, a reading that is exact
precisely when `p` avoids the PCRE metacharacters (`pcreSpecials`), so
theorems about the rename rewrite carry that restriction (`pathsRegexLit`)
as a hypothesis, and the behaviour of the real pattern on a metacharacter
path is recorded separately (`c3_unescaped_regex_matches_nondescendant`).
The Cloudinary collaborator is embedded as an oracle
`destroyOk : Str → Bool` giving the outcome of each `uploader.destroy` call;
handlers record the list of destroy calls they issue.  `new Date()` time
stamps are passed in as an explicit natural-number parameter.
-/

namespace FolderApp

/-- Characters of a JavaScript string. -/
abbrev Str := List Char

/-- The path separator `"/"` used by the materialized-path model. -/
def sep : Char := '/'

/-- The metacharacters of the PCRE patterns consumed by MongoDB's `$regex`
(the last two are the curly braces).  The delete and rename handlers
interpolate a stored path into such a pattern without escaping; when the
path avoids these characters the pattern denotes exactly the literal
character prefix, which is how the embedding below reads it. -/
def pcreSpecials : List Char :=
  ['\\', '^', '$', '.', '|', '?', '*', '+', '(', ')', '[', ']',
   Char.ofNat 0x7b, Char.ofNat 0x7d]

/-- Whitespace stripped by JavaScript `String.prototype.trim`. -/
def isWs (c : Char) : Bool := c = ' ' || c = '\t' || c = '\n' || c = '\r'

/-- JavaScript `s.trim()`. -/
def jsTrim (s : Str) : Str := ((s.dropWhile isWs).reverse.dropWhile isWs).reverse

/-- JavaScript `s.replace(pat, rep)` with a string pattern: only the first
(leftmost) occurrence of `pat` in `s` is replaced. -/
def replaceFirst (pat rep : Str) : Str → Str
  | [] => if pat.isEmpty then rep else []
  | c :: cs =>
    if pat.isPrefixOf (c :: cs) then rep ++ (c :: cs).drop pat.length
    else c :: replaceFirst pat rep cs

/-- §4.1 Path Model: `computePath(name, parentPath | none)`. -/
def computePath (name : Str) (parentPath : Option Str) : Str :=
  match parentPath with
  | none => name
  | some p => p ++ sep :: name

/-- A folder document (`models/Folder.js`); `deletedAt` is a timestamp or
`null`. -/
structure Folder where
  id : Nat
  user : Nat
  name : Str
  parentFolder : Option Nat
  path : Str
  isDeleted : Bool
  deletedAt : Option Nat
deriving DecidableEq

/-- An image document (`models/Image.js` together with the trash fields the
routes read and write); `cloudinaryPublicId` is the object-store reference,
the empty string standing for a missing (falsy) reference. -/
structure Image where
  id : Nat
  user : Nat
  folder : Nat
  cloudinaryPublicId : Str
  isDeleted : Bool
  deletedAt : Option Nat
deriving DecidableEq

/-- The two MongoDB collections, in insertion order. -/
structure Store where
  folders : List Folder
  images : List Image
deriving DecidableEq

/-- Route outcomes: `badRequest` = HTTP 400 for invalid input, `notFound` =
HTTP 404, `conflict` = the HTTP 400 duplicate-name response of the rename
route (the spec's `Conflict`), `serverError` = HTTP 500 from the catch-all
handler (in particular a MongoDB duplicate-key error from the unique index
`(user, parentFolder, name)` of `models/Folder.js`). -/
inductive Err where
  | badRequest | notFound | conflict | serverError
deriving DecidableEq

deriving instance DecidableEq for Except

/-- `folder.save()` for a freshly constructed folder: the unique index
`(user, parentFolder, name)` of `models/Folder.js` rejects the insert with a
duplicate-key error (surfaced as HTTP 500 by the route's catch) whenever any
existing folder row has the same owner, parent and name; otherwise the
document is appended. -/
def saveNew (u : Nat) (nm : Str) (pid : Option Nat) (path : Str) (newId : Nat)
    (s : Store) : Except Err (Store × Folder) :=
  if s.folders.any (fun f => f.user == u && f.parentFolder == pid && f.name == nm) then
    .error .serverError
  else
    .ok (⟨s.folders ++ [Folder.mk newId u nm pid path false none], s.images⟩,
         Folder.mk newId u nm pid path false none)

/-- `POST /` of `routes/folders.js`: create a folder.  `newId` is the fresh
document id issued by the store. -/
def createFolder (u : Nat) (name : Str) (parentFolderId : Option Nat) (newId : Nat)
    (s : Store) : Except Err (Store × Folder) :=
  let nm := jsTrim name
  if nm.isEmpty then .error .badRequest
  else
    match parentFolderId with
    | some pid =>
      match s.folders.find? (fun f => f.id == pid && f.user == u) with
      | none => .error .notFound
      | some parent => saveNew u nm (some pid) (parent.path ++ sep :: nm) newId s
    | none => saveNew u nm none nm newId s

/-- Ids of the folders matched by the delete handlers' subtree query
`Folder.find({user, path: {$regex: "^" + root.path}})`.  The stored path is
interpolated into the PCRE pattern without escaping; this embedding reads
the pattern as the literal (unanchored-at-the-end) character-prefix test,
which is exact whenever `root.path` contains none of `pcreSpecials` — for a
path with metacharacters the real query can match further rows still, one
more facet of the unsanitized-interpolation defect recorded for the rename
query by `c3_unescaped_regex_matches_nondescendant`. -/
def subtreeIds (u : Nat) (root : Folder) (s : Store) : List Nat :=
  (s.folders.filter (fun f => f.user == u && root.path.isPrefixOf f.path)).map (·.id)

/-- Effect of `Folder.updateMany({_id: {$in: ids}}, {isDeleted: true,
deletedAt: now})` on one folder row. -/
def markFolderIf (ids : List Nat) (t : Nat) (f : Folder) : Folder :=
  if ids.contains f.id then { f with isDeleted := true, deletedAt := some t } else f

/-- Effect of `Image.updateMany({folder: {$in: ids}}, {isDeleted: true,
deletedAt: now})` on one image row. -/
def markImageIf (ids : List Nat) (t : Nat) (i : Image) : Image :=
  if ids.contains i.folder then { i with isDeleted := true, deletedAt := some t } else i

/-- `DELETE /soft/:folderId` of `routes/folders.js`: move a folder subtree to
trash.  The subtree is resolved with the unanchored query
`path: {$regex: "^" + folder.path}`, and both `updateMany` stamps use the
call's current time `t`. -/
def softDeleteFolder (u fid t : Nat) (s : Store) : Except Err Store :=
  match s.folders.find? (fun f => f.id == fid && f.user == u) with
  | none => .error .notFound
  | some folder =>
    .ok ⟨s.folders.map (markFolderIf (subtreeIds u folder s) t),
         s.images.map (markImageIf (subtreeIds u folder s) t)⟩

/-- `DELETE /hard/:folderId` of `routes/folders.js`: permanently purge a
folder subtree (same unanchored subtree query as soft delete), issuing one
Cloudinary destroy call per matched image with a truthy `cloudinaryPublicId`;
each destroy is wrapped in its own try/catch, so its outcome (the oracle
`destroyOk`) is ignored and the metadata deletions always run.  Returns the
new store and the list of destroy calls issued. -/
def hardDeleteFolder (u fid : Nat) (destroyOk : Str → Bool) (s : Store) :
    Except Err (Store × List Str) :=
  match s.folders.find? (fun f => f.id == fid && f.user == u) with
  | none => .error .notFound
  | some folder =>
    let ids := subtreeIds u folder s
    let imagesToDelete := s.images.filter (fun i => ids.contains i.folder)
    let calls := (imagesToDelete.filter
      (fun i => !i.cloudinaryPublicId.isEmpty)).map (·.cloudinaryPublicId)
    .ok (⟨s.folders.filter (fun f => !ids.contains f.id),
          s.images.filter (fun i => !ids.contains i.folder)⟩, calls)

/-- First rewrite pass of the rename handler: `folder.save()` after the
handler set the renamed folder's own `name` and recomputed `path`. -/
def renUpd1 (fid : Nat) (nm newPath : Str) (f : Folder) : Folder :=
  if f.id == fid then { f with name := nm, path := newPath } else f

/-- Second rewrite pass of the rename handler: the loop over
`Folder.find({user, path: {$regex: "^" + oldPath + "/"}})` saving
`sub.path.replace(oldPath, newPath)` for each match (a string-pattern
`replace`, i.e. literal first-occurrence replacement).  As in `subtreeIds`,
`oldPath` is interpolated into the PCRE pattern without escaping, and this
embedding reads the pattern literally: that reading is exact iff `oldPath`
contains none of `pcreSpecials`, so theorems built on it restrict to such
paths (`pathsRegexLit`); on a path with metacharacters the real query also
matches non-descendants, see
`c3_unescaped_regex_matches_nondescendant`. -/
def renUpd2 (u : Nat) (oldPath newPath : Str) (f : Folder) : Folder :=
  if f.user == u && (oldPath ++ [sep]).isPrefixOf f.path then
    { f with path := replaceFirst oldPath newPath f.path }
  else f

/-- `PUT /:folderId` of `routes/folders.js`: rename a folder.  After the
explicit duplicate check (non-deleted siblings only, answered with the typed
duplicate response) the `save()` may still hit the unique index
`(user, parentFolder, name)` on a soft-deleted sibling, surfacing as a 500;
on success the descendant query `path: {$regex: "^" + oldPath + "/"}` is
anchored on the separator and every match gets
`sub.path.replace(oldPath, newPath)` (first occurrence only).  Returns the
new store and the response's folder document. -/
def renameFolder (u fid : Nat) (newName : Str) (s : Store) :
    Except Err (Store × Folder) :=
  let nm := jsTrim newName
  if nm.isEmpty then .error .badRequest
  else
    match s.folders.find? (fun f => f.id == fid && f.user == u && !f.isDeleted) with
    | none => .error .notFound
    | some folder =>
      match s.folders.find? (fun g =>
          !(g.id == fid) && g.parentFolder == folder.parentFolder && g.user == u &&
          g.name == nm && !g.isDeleted) with
      | some _ => .error .conflict
      | none =>
        let newPathE : Except Err Str :=
          match folder.parentFolder with
          | some pid =>
            match s.folders.find? (fun p => p.id == pid) with
            | none => .error .serverError
            | some parent => .ok (parent.path ++ sep :: nm)
          | none => .ok nm
        match newPathE with
        | .error e => .error e
        | .ok newPath =>
          if s.folders.any (fun g =>
              !(g.id == fid) && g.user == u && g.parentFolder == folder.parentFolder &&
              g.name == nm) then
            .error .serverError
          else
            .ok (⟨(s.folders.map (renUpd1 fid nm newPath)).map
                    (renUpd2 u folder.path newPath), s.images⟩,
                 { folder with name := nm, path := newPath })

/-- Update the first element satisfying `p` (Mongo `findOneAndUpdate`). -/
def updateFirst (p : α → Bool) (upd : α → α) : List α → List α
  | [] => []
  | x :: xs => if p x then upd x :: xs else x :: updateFirst p upd xs

/-- Remove the first element satisfying `p` (Mongo `deleteOne`). -/
def removeFirst (p : α → Bool) : List α → List α
  | [] => []
  | x :: xs => if p x then xs else x :: removeFirst p xs

/-- `POST /restore/:type/:id` of `routes/trash.js` with `type = "folder"`:
`findOneAndUpdate` requires the folder to be owned and currently trashed,
clears its trash fields, then un-trashes every trashed image of this owner
directly inside it.  Returns the new store and the restored folder
document. -/
def restoreFolder (u fid : Nat) (s : Store) : Except Err (Store × Folder) :=
  match s.folders.find? (fun f => f.id == fid && f.user == u && f.isDeleted) with
  | none => .error .notFound
  | some folder =>
    .ok (⟨updateFirst (fun f => f.id == fid && f.user == u && f.isDeleted)
            (fun f => { f with isDeleted := false, deletedAt := none }) s.folders,
          s.images.map (fun i =>
            if i.folder == fid && i.user == u && i.isDeleted then
              { i with isDeleted := false, deletedAt := none }
            else i)⟩,
         { folder with isDeleted := false, deletedAt := none })

/-- Trace of a run of consecutive Cloudinary destroy calls without any
per-item try/catch: calls are issued left to right, and the first failure
throws, aborting the remaining calls. `ok` tells whether the run completed,
`calls` lists the destroy calls actually issued. -/
structure DestroyRun where
  ok : Bool
  calls : List Str
deriving DecidableEq

/-- Issue destroys left to right, stopping at (and including) the first
failing call. -/
def runDestroys (destroyOk : Str → Bool) : List Str → DestroyRun
  | [] => ⟨true, []⟩
  | p :: ps =>
    if destroyOk p then
      let r := runDestroys destroyOk ps
      ⟨r.ok, p :: r.calls⟩
    else ⟨false, [p]⟩

/-- Outcome of a trash-route handler: the HTTP-level response, the resulting
store and the Cloudinary destroy calls issued. -/
structure PermResult where
  resp : Except Err Unit
  store : Store
  calls : List Str

/-- `DELETE /permanent/:type/:id` of `routes/trash.js` with
`type = "folder"`: requires the folder to be owned and trashed; destroys the
payloads of the owner's images directly inside it with no per-item try/catch,
so the first failing destroy throws to the route's catch (HTTP 500) before
any metadata is deleted; if all destroys succeed, `Image.deleteMany` removes
those images and `Folder.deleteOne` removes the folder document. -/
def permanentDeleteFolder (u fid : Nat) (destroyOk : Str → Bool) (s : Store) :
    PermResult :=
  match s.folders.find? (fun f => f.id == fid && f.user == u && f.isDeleted) with
  | none => ⟨.error .notFound, s, []⟩
  | some _ =>
    let imgs := s.images.filter (fun i => i.folder == fid && i.user == u)
    let pids := (imgs.filter (fun i => !i.cloudinaryPublicId.isEmpty)).map
      (·.cloudinaryPublicId)
    let r := runDestroys destroyOk pids
    if r.ok then
      ⟨.ok (), ⟨removeFirst (fun f => f.id == fid) s.folders,
                s.images.filter (fun i => !(i.folder == fid && i.user == u))⟩, r.calls⟩
    else ⟨.error .serverError, s, r.calls⟩

/-- `cleanupOldTrash` of `routes/trash.js` (the retention sweeper): selects
the trashed images and folders whose `deletedAt` is older than the cutoff,
destroys the old images' payloads with no per-item try/catch — the first
failure throws to the function's own catch, which only logs, so nothing is
deleted and the remaining items are skipped — and otherwise deletes the
selected image and folder records by id.  Returns the resulting store and
the destroy calls issued. -/
def cleanupOldTrash (destroyOk : Str → Bool) (cutoff : Nat) (s : Store) :
    Store × List Str :=
  let oldP : Option Nat → Bool := fun d =>
    match d with
    | some t => decide (t < cutoff)
    | none => false
  let oldImages := s.images.filter (fun i => i.isDeleted && oldP i.deletedAt)
  let oldFolders := s.folders.filter (fun f => f.isDeleted && oldP f.deletedAt)
  let pids := (oldImages.filter (fun i => !i.cloudinaryPublicId.isEmpty)).map
    (·.cloudinaryPublicId)
  let r := runDestroys destroyOk pids
  if r.ok then
    (⟨s.folders.filter (fun f => !(oldFolders.map (·.id)).contains f.id),
      s.images.filter (fun i => !(oldImages.map (·.id)).contains i.id)⟩, r.calls)
  else (s, r.calls)

/-! ## Generic list and string lemmas -/

/-- `chars` of a Lean string literal, for concrete test stores. -/
def chars (s : String) : Str := s.toList

theorem isPrefixOf_eq_true {l₁ l₂ : Str} (h : l₁ <+: l₂) : l₁.isPrefixOf l₂ = true :=
  List.isPrefixOf_iff_prefix.mpr h

theorem isPrefixOf_eq_false {l₁ l₂ : Str} (h : ¬ l₁ <+: l₂) : l₁.isPrefixOf l₂ = false := by
  by_contra hc
  exact h (List.isPrefixOf_iff_prefix.mp (by revert hc; cases l₁.isPrefixOf l₂ <;> simp))

/-- JavaScript `replace` on a string that starts with the pattern replaces
exactly that leading occurrence. -/
theorem replaceFirst_leading {pat s : Str} (rep : Str) (h : pat <+: s) :
    replaceFirst pat rep s = rep ++ s.drop pat.length := by
  cases s with
  | nil =>
    have : pat = [] := List.prefix_nil.mp h
    subst this
    simp [replaceFirst]
  | cons c cs =>
    unfold replaceFirst
    rw [if_pos (isPrefixOf_eq_true h)]

theorem find?_map_of_pred {α : Type} (g : α → α) (p : α → Bool) (l : List α)
    (hp : ∀ x, p (g x) = p x) : (l.map g).find? p = (l.find? p).map g := by
  induction l with
  | nil => rfl
  | cons x xs ih =>
    by_cases hx : p x = true
    · simp [List.find?_cons, hp x, hx]
    · have hx' : p x = false := by revert hx; cases p x <;> simp
      simp [List.find?_cons, hp x, hx', ih]

theorem filter_map_of_pred {α : Type} (g : α → α) (p : α → Bool) (l : List α)
    (hp : ∀ x, p (g x) = p x) : (l.map g).filter p = (l.filter p).map g := by
  rw [List.filter_map]
  congr 1
  apply List.filter_congr
  intro x _
  exact hp x

theorem updateFirst_eq_map {α : Type} (p : α → Bool) (u : α → α) (l : List α)
    (h : l.Pairwise (fun x y => ¬(p x = true ∧ p y = true))) :
    updateFirst p u l = l.map (fun x => if p x then u x else x) := by
  induction l with
  | nil => rfl
  | cons x xs ih =>
    rcases List.pairwise_cons.mp h with ⟨hx, hxs⟩
    by_cases hpx : p x = true
    · have : xs.map (fun y => if p y then u y else y) = xs.map id := by
        apply List.map_congr_left
        intro y hy
        have : ¬ p y = true := fun hpy => hx y hy ⟨hpx, hpy⟩
        simp [this]
      simp [updateFirst, hpx, this]
    · simp [updateFirst, hpx, ih hxs]

theorem removeFirst_eq_filter {α : Type} (p : α → Bool) (l : List α)
    (h : l.Pairwise (fun x y => ¬(p x = true ∧ p y = true))) :
    removeFirst p l = l.filter (fun x => !p x) := by
  induction l with
  | nil => rfl
  | cons x xs ih =>
    rcases List.pairwise_cons.mp h with ⟨hx, hxs⟩
    by_cases hpx : p x = true
    · have : xs.filter (fun y => !p y) = xs := by
        apply List.filter_eq_self.mpr
        intro y hy
        have : ¬ p y = true := fun hpy => hx y hy ⟨hpx, hpy⟩
        simp [this]
      simp [removeFirst, hpx, this]
    · simp [removeFirst, hpx, ih hxs]

/-- If a list's elements are pairwise distinct under a projection, two members
agreeing on the projection are the same member. -/
theorem pairwise_key_inj {α κ : Type} (key : α → κ) {l : List α}
    (h : l.Pairwise (fun x y => key x ≠ key y)) :
    ∀ x ∈ l, ∀ y ∈ l, key x = key y → x = y := by
  induction l with
  | nil => intro x hx; cases hx
  | cons a as ih =>
    rcases List.pairwise_cons.mp h with ⟨ha, has⟩
    intro x hx y hy hk
    rcases List.mem_cons.mp hx with rfl | hx' <;> rcases List.mem_cons.mp hy with rfl | hy'
    · rfl
    · exact absurd hk (ha y hy')
    · exact absurd hk.symm (ha x hx')
    · exact ih has x hx' y hy' hk

/-! ## Store invariants

These are properties of every store reachable by the repository's own
operations (unique document ids, single-owner parent links, the materialized
path shape of §3, per-owner distinct paths, names free of the separator);
the theorems below take the ones they need as hypotheses. -/

/-- Document ids of distinct folder rows differ. -/
def idsUnique (s : Store) : Prop := s.folders.Pairwise (fun f g => f.id ≠ g.id)

/-- A folder's `parentFolder` link stays inside the same owner's folders. -/
def parentUserOk (s : Store) : Prop :=
  ∀ f ∈ s.folders, ∀ p ∈ s.folders, f.parentFolder = some p.id → p.user = f.user

/-- Distinct folders of one owner have distinct materialized paths. -/
def pathsUniq (s : Store) : Prop :=
  ∀ f ∈ s.folders, ∀ g ∈ s.folders, f.user = g.user → f.path = g.path → f = g

/-- Folder names do not contain the path separator. -/
def namesSepFree (s : Store) : Prop := ∀ f ∈ s.folders, sep ∉ f.name

/-- Every stored path is free of PCRE metacharacters, so the handlers'
unescaped `$regex` patterns built from these paths match literally — the
regime in which this embedding's prefix reading of the queries is exact. -/
def pathsRegexLit (s : Store) : Prop := ∀ f ∈ s.folders, ∀ c ∈ f.path, c ∉ pcreSpecials

/-- §3's path invariant for one folder: a root's path is its name, a child's
path is its parent's path, the separator and its name, and the parent row
exists. -/
def folderPathOk (s : Store) (f : Folder) : Prop :=
  (f.parentFolder = none → f.path = f.name) ∧
  (f.parentFolder = none ∨ ∃ p ∈ s.folders, f.parentFolder = some p.id) ∧
  (∀ p ∈ s.folders, f.parentFolder = some p.id → f.path = computePath f.name (some p.path))

/-- §3's path invariant: every folder's path agrees with `computePath` of its
name and its parent's current path, hence with all ancestors' names. -/
def pathInv (s : Store) : Prop := ∀ f ∈ s.folders, folderPathOk s f

instance (s : Store) : Decidable (idsUnique s) := by
  unfold idsUnique
  exact inferInstance

instance (s : Store) : Decidable (parentUserOk s) := by
  unfold parentUserOk
  exact inferInstance

instance (s : Store) : Decidable (pathsUniq s) := by
  unfold pathsUniq
  exact inferInstance

instance (s : Store) : Decidable (namesSepFree s) := by
  unfold namesSepFree
  exact inferInstance

instance (s : Store) : Decidable (pathsRegexLit s) := by
  unfold pathsRegexLit
  exact inferInstance

instance (s : Store) (f : Folder) : Decidable (folderPathOk s f) := by
  unfold folderPathOk
  exact inferInstance

instance (s : Store) : Decidable (pathInv s) := by
  unfold pathInv
  exact inferInstance

theorem idsUnique_mem {s : Store} (h : idsUnique s) :
    ∀ f ∈ s.folders, ∀ g ∈ s.folders, f.id = g.id → f = g :=
  pairwise_key_inj Folder.id h

/-! ## Unfolding lemmas for the rename handler -/

/-- Anatomy of a successful rename: the folder looked up, the recomputed
path, the response document, and the two rewrite passes over the folder
collection. -/
theorem renameFolder_ok_elim {u fid : Nat} {newName : Str} {s s' : Store} {fr : Folder}
    (h : renameFolder u fid newName s = .ok (s', fr)) :
    ∃ f₀ newPath,
      s.folders.find? (fun f => f.id == fid && f.user == u && !f.isDeleted) = some f₀ ∧
      (match f₀.parentFolder with
       | none => newPath = jsTrim newName
       | some pid => ∃ parent, s.folders.find? (fun p => p.id == pid) = some parent ∧
           newPath = parent.path ++ sep :: jsTrim newName) ∧
      fr = { f₀ with name := jsTrim newName, path := newPath } ∧
      s'.images = s.images ∧
      s'.folders = (s.folders.map (renUpd1 fid (jsTrim newName) newPath)).map
        (renUpd2 u f₀.path newPath) := by
  simp only [renameFolder] at h
  split at h
  · simp at h
  split at h
  · simp at h
  rename_i folder hfind
  split at h
  · simp at h
  rename_i hdup
  split at h
  · simp at h
  rename_i newPath heq
  split at h
  · simp at h
  rename_i hany
  rw [Except.ok.injEq, Prod.mk.injEq] at h
  obtain ⟨hs', hfr⟩ := h
  refine ⟨folder, newPath, hfind, ?_, hfr.symm, by rw [← hs'], by rw [← hs']⟩
  rcases hpf : folder.parentFolder with _ | pid
  · simp only [hpf] at heq
    simp only []
    exact (Except.ok.injEq _ _).mp heq.symm |>.symm ▸ rfl
  · simp only [hpf] at heq
    split at heq
    · simp at heq
    rename_i parent hparfind
    simp only []
    exact ⟨parent, hparfind, ((Except.ok.injEq _ _).mp heq).symm⟩

/-! ## Concrete stores used as failing inputs and witnesses -/

/-- Owner 0 has sibling root folders `"Foo"` and `"Foo2"`; `"Foo2"` holds one
image with payload reference `"p2"`.  `"Foo2"` is not a descendant of
`"Foo"`. -/
def prefixSiblingStore : Store :=
  ⟨[⟨0, 0, chars "Foo", none, chars "Foo", false, none⟩,
    ⟨1, 0, chars "Foo2", none, chars "Foo2", false, none⟩],
   [⟨0, 0, 1, chars "p2", false, none⟩]⟩

/-- **C1.** The claim fails on the code: the subtree queries of the soft and
hard delete handlers use the unanchored regex `^Foo`, so soft-deleting the
folder `"Foo"` also marks the unrelated sibling `"Foo2"` (and its image) as
deleted, although `"Foo2"` neither equals `"Foo"` nor starts with `"Foo/"`.
The rename handler anchors its query on the separator, so the spec's rule is
clearly the intent and the missing `"/"` in the delete queries a slip. -/
theorem c1_softDelete_marks_prefix_sibling :
    softDeleteFolder 0 0 5 prefixSiblingStore =
      .ok ⟨[⟨0, 0, chars "Foo", none, chars "Foo", true, some 5⟩,
            ⟨1, 0, chars "Foo2", none, chars "Foo2", true, some 5⟩],
           [⟨0, 0, 1, chars "p2", true, some 5⟩]⟩ ∧
    ¬ (chars "Foo" ++ [sep]) <+: chars "Foo2" ∧ chars "Foo2" ≠ chars "Foo" := by
  refine ⟨by rfl, by decide, by decide⟩

/-- **C9.** The claim fails on the code for the same reason as C1: hard
delete of `"Foo"` resolves the subtree with the unanchored regex `^Foo`, so
it also removes the record of the unrelated sibling `"Foo2"`, removes the
image inside `"Foo2"`, and issues a destroy call for that image's payload
`"p2"`, which belongs to no folder of `"Foo"`'s subtree. -/
theorem c9_hardDelete_removes_prefix_sibling :
    hardDeleteFolder 0 0 (fun _ => true) prefixSiblingStore =
      .ok (⟨[], []⟩, [chars "p2"]) ∧
    ¬ (chars "Foo" ++ [sep]) <+: chars "Foo2" := by
  refine ⟨by rfl, by decide⟩

/-- Owner 0 has one trashed folder `"F"` (trashed long ago) holding two
trashed images with payload references `"p1"` and `"p2"`. -/
def trashedPairStore : Store :=
  ⟨[⟨0, 0, chars "F", none, chars "F", true, some 0⟩],
   [⟨0, 0, 0, chars "p1", true, some 0⟩, ⟨1, 0, 0, chars "p2", true, some 0⟩]⟩

/-- Object-store oracle that fails exactly on payload `"p1"`. -/
def failP1 : Str → Bool := fun p => !(p == chars "p1")

/-- **C6.** The claim fails on the code for the trash routes: unlike the
hard-delete handler of `routes/folders.js` (whose per-image try/catch does
swallow destroy failures), `DELETE /permanent/...` and `cleanupOldTrash` in
`routes/trash.js` have no per-item try/catch.  When the destroy of `"p1"`
fails, the permanent delete answers 500 with no metadata removed and without
ever attempting `"p2"`, and the sweeper likewise aborts, deleting nothing. -/
theorem c6_destroy_failure_aborts_trash_routes :
    (permanentDeleteFolder 0 0 failP1 trashedPairStore).resp = .error .serverError ∧
    (permanentDeleteFolder 0 0 failP1 trashedPairStore).store = trashedPairStore ∧
    (permanentDeleteFolder 0 0 failP1 trashedPairStore).calls = [chars "p1"] ∧
    cleanupOldTrash failP1 100 trashedPairStore = (trashedPairStore, [chars "p1"]) := by
  refine ⟨by rfl, by rfl, by rfl, by rfl⟩

/-! ## C3: the rename descendant query interpolates an unescaped path -/

/-- Anchored PCRE prefix matching for the pattern class the rename handler
generates from a stored path whose only metacharacter is the dot: each
pattern character matches itself literally except `.`, which matches any
single character; `$regex` leaves the end unanchored, so a match of the
whole pattern against a prefix of the subject suffices. -/
def dotPrefixMatch : Str → Str → Bool
  | [], _ => true
  | _ :: _, [] => false
  | p :: ps, c :: cs => (p == '.' || p == c) && dotPrefixMatch ps cs

/-- **C3.** The claim is right and the code is wrong: the rename handler
interpolates the old path into its descendant query without regex escaping
(`Folder.find({user, path: {$regex: "^" + oldPath + "/"}})` at
`routes/folders.js:196-199`), and folder names are only checked non-empty,
so names with PCRE metacharacters are reachable.  For the store with root
`"AXB"`, its child named `"A.B"` (path `"AXB/A.B"`) and a root named
`"A.B"`, renaming the root `"A.B"` to `"C"` runs the PCRE `^A.B/`, whose
dot matches `X`: the non-descendant `"AXB/A.B"` is matched although its
path does not start with `"A.B/"`, and the handler's literal
first-occurrence `replace` then corrupts that path to `"AXB/C"`. -/
theorem c3_unescaped_regex_matches_nondescendant :
    dotPrefixMatch (chars "A.B/") (chars "AXB/A.B") = true ∧
    ¬ (chars "A.B" ++ [sep]) <+: chars "AXB/A.B" ∧
    replaceFirst (chars "A.B") (chars "C") (chars "AXB/A.B") = chars "AXB/C" ∧
    '.' ∈ pcreSpecials :=
  ⟨by decide, by decide, by decide, by decide⟩

/-- Owner 0's folders: root `"A"`, child `"A/B"`, unrelated sibling `"AB"`,
and grandchild `"A/B/A"` whose suffix repeats the segment `"A"`. -/
def renameWitnessStore : Store :=
  ⟨[⟨0, 0, chars "A", none, chars "A", false, none⟩,
    ⟨1, 0, chars "B", some 0, chars "A/B", false, none⟩,
    ⟨2, 0, chars "AB", none, chars "AB", false, none⟩,
    ⟨3, 0, chars "A", some 1, chars "A/B/A", false, none⟩], []⟩

/-- The folder collection after renaming folder 0 of `renameWitnessStore`
from `"A"` to `"C"`. -/
def renameWitnessResult : Store :=
  ⟨[⟨0, 0, chars "C", none, chars "C", false, none⟩,
    ⟨1, 0, chars "B", some 0, chars "C/B", false, none⟩,
    ⟨2, 0, chars "AB", none, chars "AB", false, none⟩,
    ⟨3, 0, chars "A", some 1, chars "C/B/A", false, none⟩], []⟩

/-! ## C5: create-folder error behaviour -/

/-- Owner 0's single root folder `"A"`. -/
def rootAStore : Store := ⟨[⟨0, 0, chars "A", none, chars "A", false, none⟩], []⟩

/-- `rootAStore` after creating `"Docs"` under `"A"`. -/
def rootADocsStore : Store :=
  ⟨[⟨0, 0, chars "A", none, chars "A", false, none⟩,
    ⟨1, 0, chars "Docs", some 0, chars "A/Docs", false, none⟩], []⟩

/-- **C5 counterexample.** The first create of `"Docs"` under `"A"` succeeds
with path `"A/Docs"`, and the second create of the same name under the same
parent does fail — but the create handler has no duplicate check of its own,
so the failure is the untyped catch-all server error (HTTP 500) raised by
the unique index, not the typed Conflict of the claim. -/
theorem c5_counterexample :
    createFolder 0 (chars "Docs") (some 0) 1 rootAStore =
      .ok (rootADocsStore, ⟨1, 0, chars "Docs", some 0, chars "A/Docs", false, none⟩) ∧
    createFolder 0 (chars "Docs") (some 0) 2 rootADocsStore = .error .serverError ∧
    Err.serverError ≠ Err.conflict := by
  refine ⟨by rfl, by rfl, by decide⟩

/-- **C5 (amended).** Create fails NotFound when `parentFolderId` names no
folder owned by the caller; when the parent is found and no folder row of
this owner has the same parent and trimmed name, it succeeds, appending a
folder with path `parent.path ++ "/" ++ name`; and when such a row exists —
whether or not it is soft-deleted — it fails with the untyped server error
surfaced from the unique index (for a root create likewise), never with the
typed Conflict. -/
theorem c5_create_results :
    (∀ (s : Store) (u nid pid : Nat) (name : Str), jsTrim name ≠ [] →
      (∀ f ∈ s.folders, ¬(f.id = pid ∧ f.user = u)) →
      createFolder u name (some pid) nid s = .error .notFound) ∧
    (∀ (s : Store) (u nid pid : Nat) (name : Str) (parent : Folder),
      jsTrim name ≠ [] →
      s.folders.find? (fun f => f.id == pid && f.user == u) = some parent →
      (∀ f ∈ s.folders, ¬(f.user = u ∧ f.parentFolder = some pid ∧ f.name = jsTrim name)) →
      createFolder u name (some pid) nid s =
        .ok (⟨s.folders ++ [Folder.mk nid u (jsTrim name) (some pid)
                (parent.path ++ sep :: jsTrim name) false none], s.images⟩,
             Folder.mk nid u (jsTrim name) (some pid)
               (parent.path ++ sep :: jsTrim name) false none)) ∧
    (∀ (s : Store) (u nid pid : Nat) (name : Str) (parent dup : Folder),
      jsTrim name ≠ [] →
      s.folders.find? (fun f => f.id == pid && f.user == u) = some parent →
      dup ∈ s.folders → dup.user = u → dup.parentFolder = some pid →
      dup.name = jsTrim name →
      createFolder u name (some pid) nid s = .error .serverError) ∧
    (∀ (s : Store) (u nid : Nat) (name : Str) (dup : Folder),
      jsTrim name ≠ [] →
      dup ∈ s.folders → dup.user = u → dup.parentFolder = none →
      dup.name = jsTrim name →
      createFolder u name none nid s = .error .serverError) := by
  have hempty : ∀ name : Str, jsTrim name ≠ [] → (jsTrim name).isEmpty = false := by
    intro name h
    cases hj : jsTrim name with
    | nil => exact absurd hj h
    | cons a l => rfl
  refine ⟨?_, ?_, ?_, ?_⟩
  · intro s u nid pid name hnm hnone
    have hfind : s.folders.find? (fun f => f.id == pid && f.user == u) = none := by
      apply List.find?_eq_none.mpr
      intro f hf
      have := hnone f hf
      simp only [Bool.and_eq_true, beq_iff_eq]
      tauto
    simp only [createFolder, hempty name hnm, Bool.false_eq_true, if_false, hfind]
  · intro s u nid pid name parent hnm hfind hnodup
    have hany : (s.folders.any
        (fun f => f.user == u && f.parentFolder == some pid && f.name == jsTrim name)) = false := by
      apply List.any_eq_false.mpr
      intro f hf
      have := hnodup f hf
      simp only [Bool.and_eq_true, beq_iff_eq, not_and]
      tauto
    simp only [createFolder, hempty name hnm, Bool.false_eq_true, if_false, hfind,
      saveNew, hany]
  · intro s u nid pid name parent dup hnm hfind hmem hu hp hn
    have hany : (s.folders.any
        (fun f => f.user == u && f.parentFolder == some pid && f.name == jsTrim name)) = true :=
      List.any_eq_true.mpr ⟨dup, hmem, by simp [hu, hp, hn]⟩
    simp only [createFolder, hempty name hnm, Bool.false_eq_true, if_false, hfind,
      saveNew, hany, if_true]
  · intro s u nid name dup hnm hmem hu hp hn
    have hany : (s.folders.any
        (fun f => f.user == u && f.parentFolder == none && f.name == jsTrim name)) = true :=
      List.any_eq_true.mpr ⟨dup, hmem, by simp [hu, hp, hn]⟩
    simp only [createFolder, hempty name hnm, Bool.false_eq_true, if_false,
      saveNew, hany, if_true]

/-- Witness for the amended C5 at a concrete input: creating `"Docs"` under
`"A"` succeeds with path `"A/Docs"`. -/
theorem c5_create_results_witness :
    createFolder 0 (chars "Docs") (some 0) 1 rootAStore =
      .ok (rootADocsStore, ⟨1, 0, chars "Docs", some 0, chars "A/Docs", false, none⟩) := by
  have h := c5_create_results.2.1 rootAStore 0 1 0 (chars "Docs")
    ⟨0, 0, chars "A", none, chars "A", false, none⟩ (by decide) (by decide)
    (by decide)
  rw [h]
  rfl

/-! ## C7: restore of a folder is shallow -/

theorem image_clear_eq_self {i : Image} (h1 : i.isDeleted = false) (h2 : i.deletedAt = none) :
    { i with isDeleted := false, deletedAt := none } = i := by
  cases i
  simp_all

/-- **C7.** Restoring a folder fails NotFound unless an owned folder row with
that id is currently trashed; on success exactly that row has its trash
fields cleared, every image of this owner directly inside it ends up
untrashed with no deletion stamp, and every other folder row — in particular
every nested subfolder trashed by the same cascade — and every other image
row is untouched. -/
theorem c7_restore_folder_shallow :
    (∀ (s : Store) (u fid : Nat),
      (∀ f ∈ s.folders, f.id = fid → f.user = u → f.isDeleted = false) →
      restoreFolder u fid s = .error .notFound) ∧
    (∀ (s : Store) (u fid : Nat) (s' : Store) (fr : Folder),
      idsUnique s →
      (∀ im ∈ s.images, im.isDeleted = false → im.deletedAt = none) →
      restoreFolder u fid s = .ok (s', fr) →
      (∃ f₀ ∈ s.folders, f₀.id = fid ∧ f₀.user = u ∧ f₀.isDeleted = true) ∧
      s'.folders = s.folders.map (fun f =>
        if f.id = fid then { f with isDeleted := false, deletedAt := none } else f) ∧
      s'.images = s.images.map (fun i =>
        if i.folder = fid ∧ i.user = u then { i with isDeleted := false, deletedAt := none }
        else i)) := by
  constructor
  · intro s u fid hno
    have hfind : s.folders.find?
        (fun f => f.id == fid && f.user == u && f.isDeleted) = none := by
      apply List.find?_eq_none.mpr
      intro f hf
      simp only [Bool.and_eq_true, beq_iff_eq]
      rintro ⟨⟨h1, h2⟩, h3⟩
      rw [hno f hf h1 h2] at h3
      exact Bool.false_ne_true h3
    unfold restoreFolder
    rw [hfind]
  · intro s u fid s' fr hids himg hok
    unfold restoreFolder at hok
    cases hfind : s.folders.find? (fun f => f.id == fid && f.user == u && f.isDeleted) with
    | none => rw [hfind] at hok; simp at hok
    | some folder =>
      rw [hfind, Except.ok.injEq, Prod.mk.injEq] at hok
      obtain ⟨hstore, hfr⟩ := hok
      have hmem := List.mem_of_find?_eq_some hfind
      have hpred := List.find?_some hfind
      simp only [Bool.and_eq_true, beq_iff_eq] at hpred
      obtain ⟨⟨hfid, huser⟩, hdel⟩ := hpred
      refine ⟨⟨folder, hmem, hfid, huser, hdel⟩, ?_, ?_⟩
      · rw [← hstore]
        have hpair : s.folders.Pairwise (fun x y =>
            ¬((x.id == fid && x.user == u && x.isDeleted) = true ∧
              (y.id == fid && y.user == u && y.isDeleted) = true)) := by
          apply hids.imp
          intro a b hab hcon
          obtain ⟨ha, hb⟩ := hcon
          simp only [Bool.and_eq_true, beq_iff_eq] at ha hb
          exact hab (ha.1.1.trans hb.1.1.symm)
        show updateFirst _ _ s.folders = _
        rw [updateFirst_eq_map _ _ _ hpair]
        apply List.map_congr_left
        intro f hf
        by_cases hid : f.id = fid
        · have hfe : f = folder := idsUnique_mem hids f hf folder hmem (hid.trans hfid.symm)
          have hcond : (f.id == fid && f.user == u && f.isDeleted) = true := by
            rw [hfe]
            simp [hfid, huser, hdel]
          rw [if_pos hcond, if_pos hid]
        · have hcond : (f.id == fid && f.user == u && f.isDeleted) = false := by
            have : (f.id == fid) = false := by simpa using hid
            simp [this]
          rw [if_neg (by simp [hcond]), if_neg hid]
      · rw [← hstore]
        show s.images.map _ = _
        apply List.map_congr_left
        intro i hi
        by_cases hifu : i.folder = fid ∧ i.user = u
        · obtain ⟨hif, hiu⟩ := hifu
          by_cases hidel : i.isDeleted = true
          · rw [if_pos (by simp [hif, hiu, hidel]), if_pos ⟨hif, hiu⟩]
          · have hfalse : i.isDeleted = false := by
              revert hidel; cases i.isDeleted <;> simp
            rw [if_neg (by simp [hfalse]), if_pos ⟨hif, hiu⟩]
            exact (image_clear_eq_self hfalse (himg i hi hfalse)).symm
        · have hcond : (i.folder == fid && i.user == u && i.isDeleted) = false := by
            rcases Decidable.not_and_iff_or_not.mp hifu with hf | hu
            · have : (i.folder == fid) = false := by simpa using hf
              simp [this]
            · have : (i.user == u) = false := by simpa using hu
              simp [this]
          rw [if_neg (by simp [hcond]), if_neg hifu]

/-- Owner 0's trashed folder `"F"` (id 0) with a trashed child folder
`"F/D"` (id 1); one trashed image sits directly in `"F"`, another in the
child. -/
def trashedTreeStore : Store :=
  ⟨[⟨0, 0, chars "F", none, chars "F", true, some 3⟩,
    ⟨1, 0, chars "D", some 0, chars "F/D", true, some 3⟩],
   [⟨0, 0, 0, chars "p", true, some 3⟩, ⟨1, 0, 1, chars "q", true, some 3⟩]⟩

/-- Witness for C7 at a concrete input: restoring folder 0 of
`trashedTreeStore` un-trashes the folder and its direct image while the
nested subfolder (id 1) and its image stay trashed. -/
theorem c7_restore_folder_shallow_witness :
    (∃ f₀ ∈ trashedTreeStore.folders, f₀.id = 0 ∧ f₀.user = 0 ∧ f₀.isDeleted = true) ∧
    (⟨[⟨0, 0, chars "F", none, chars "F", false, none⟩,
       ⟨1, 0, chars "D", some 0, chars "F/D", true, some 3⟩],
      [⟨0, 0, 0, chars "p", false, none⟩, ⟨1, 0, 1, chars "q", true, some 3⟩]⟩ : Store).folders =
      trashedTreeStore.folders.map (fun f =>
        if f.id = 0 then { f with isDeleted := false, deletedAt := none } else f) ∧
    (⟨[⟨0, 0, chars "F", none, chars "F", false, none⟩,
       ⟨1, 0, chars "D", some 0, chars "F/D", true, some 3⟩],
      [⟨0, 0, 0, chars "p", false, none⟩, ⟨1, 0, 1, chars "q", true, some 3⟩]⟩ : Store).images =
      trashedTreeStore.images.map (fun i =>
        if i.folder = 0 ∧ i.user = 0 then { i with isDeleted := false, deletedAt := none }
        else i) :=
  c7_restore_folder_shallow.2 trashedTreeStore 0 0
    ⟨[⟨0, 0, chars "F", none, chars "F", false, none⟩,
      ⟨1, 0, chars "D", some 0, chars "F/D", true, some 3⟩],
     [⟨0, 0, 0, chars "p", false, none⟩, ⟨1, 0, 1, chars "q", true, some 3⟩]⟩
    ⟨0, 0, chars "F", none, chars "F", false, none⟩
    (by decide) (by decide) (by rfl)

/-! ## C10: permanent delete of a folder does not cascade -/

theorem runDestroys_all_ok (destroyOk : Str → Bool) (ps : List Str)
    (h : ∀ p ∈ ps, destroyOk p = true) : runDestroys destroyOk ps = ⟨true, ps⟩ := by
  induction ps with
  | nil => rfl
  | cons p ps ih =>
    have hp := h p (List.mem_cons_self p ps)
    simp [runDestroys, hp, ih (fun q hq => h q (List.mem_cons_of_mem p hq))]

/-- **C10.** Permanent delete of a trashed folder (unique folder ids, and the
object store succeeding on this folder's own images) answers ok and removes
exactly the folder's own row and the rows of this owner's images directly
inside it; every other folder row — in particular every trashed descendant
subfolder — and every image row of other folders survives unchanged, so
descendants are left orphaned rather than cascaded. -/
theorem c10_permanent_delete_folder_no_cascade :
    ∀ (s : Store) (u fid : Nat) (destroyOk : Str → Bool),
    idsUnique s →
    (∀ im ∈ s.images, im.folder = fid → im.user = u →
      im.cloudinaryPublicId ≠ [] → destroyOk im.cloudinaryPublicId = true) →
    (∃ f₀ ∈ s.folders, f₀.id = fid ∧ f₀.user = u ∧ f₀.isDeleted = true) →
    (permanentDeleteFolder u fid destroyOk s).resp = .ok () ∧
    (permanentDeleteFolder u fid destroyOk s).store.folders =
      s.folders.filter (fun f => !(f.id == fid)) ∧
    (permanentDeleteFolder u fid destroyOk s).store.images =
      s.images.filter (fun i => !(i.folder == fid && i.user == u)) := by
  intro s u fid destroyOk hids hdes hex
  obtain ⟨f₀, hmem, hfid, huser, hdel⟩ := hex
  cases hfind : s.folders.find? (fun f => f.id == fid && f.user == u && f.isDeleted) with
  | none =>
    exfalso
    exact List.find?_eq_none.mp hfind f₀ hmem (by simp [hfid, huser, hdel])
  | some folder =>
    have hall : ∀ p ∈ (((s.images.filter (fun i => i.folder == fid && i.user == u)).filter
        (fun i => !i.cloudinaryPublicId.isEmpty)).map (·.cloudinaryPublicId)),
        destroyOk p = true := by
      intro p hp
      obtain ⟨im, him, rfl⟩ := List.mem_map.mp hp
      have h2 := List.mem_filter.mp him
      have h3 := List.mem_filter.mp h2.1
      have h4 := h2.2
      simp only [Bool.and_eq_true, beq_iff_eq] at h3
      apply hdes im h3.1 h3.2.1 h3.2.2
      intro hemp
      rw [hemp] at h4
      simp at h4
    have hrun := runDestroys_all_ok destroyOk _ hall
    have hpair : s.folders.Pairwise (fun x y =>
        ¬((x.id == fid) = true ∧ (y.id == fid) = true)) := by
      apply hids.imp
      intro a b hab hcon
      obtain ⟨ha, hb⟩ := hcon
      simp only [beq_iff_eq] at ha hb
      exact hab (ha.trans hb.symm)
    refine ⟨?_, ?_, ?_⟩ <;>
      simp only [permanentDeleteFolder, hfind, hrun, if_true] <;>
      rw [removeFirst_eq_filter _ _ hpair]

/-- Witness for C10 at a concrete input: purging trashed folder 0 of
`trashedTreeStore` leaves the trashed descendant (id 1) and its image
behind. -/
theorem c10_permanent_delete_folder_no_cascade_witness :
    (permanentDeleteFolder 0 0 (fun _ => true) trashedTreeStore).resp = .ok () ∧
    (permanentDeleteFolder 0 0 (fun _ => true) trashedTreeStore).store =
      ⟨[⟨1, 0, chars "D", some 0, chars "F/D", true, some 3⟩],
       [⟨1, 0, 1, chars "q", true, some 3⟩]⟩ := by
  have h := c10_permanent_delete_folder_no_cascade trashedTreeStore 0 0 (fun _ => true)
    (by decide) (fun im _ _ _ _ => rfl)
    ⟨⟨0, 0, chars "F", none, chars "F", true, some 3⟩, by decide, rfl, rfl, rfl⟩
  obtain ⟨hresp, hf, hi⟩ := h
  refine ⟨hresp, ?_⟩
  have hsplit : (permanentDeleteFolder 0 0 (fun _ => true) trashedTreeStore).store =
      ⟨(permanentDeleteFolder 0 0 (fun _ => true) trashedTreeStore).store.folders,
       (permanentDeleteFolder 0 0 (fun _ => true) trashedTreeStore).store.images⟩ := rfl
  rw [hsplit, hf, hi]
  rfl

/-! ## C4: soft delete — idempotence only up to timestamps -/

theorem markFolderIf_id (ids : List Nat) (t : Nat) (f : Folder) :
    (markFolderIf ids t f).id = f.id := by
  unfold markFolderIf; split <;> rfl

theorem markFolderIf_user (ids : List Nat) (t : Nat) (f : Folder) :
    (markFolderIf ids t f).user = f.user := by
  unfold markFolderIf; split <;> rfl

theorem markFolderIf_path (ids : List Nat) (t : Nat) (f : Folder) :
    (markFolderIf ids t f).path = f.path := by
  unfold markFolderIf; split <;> rfl

theorem markFolderIf_idem (ids : List Nat) (t : Nat) (f : Folder) :
    markFolderIf ids t (markFolderIf ids t f) = markFolderIf ids t f := by
  by_cases h : f.id ∈ ids <;> simp [markFolderIf, h]

theorem markImageIf_idem (ids : List Nat) (t : Nat) (i : Image) :
    markImageIf ids t (markImageIf ids t i) = markImageIf ids t i := by
  by_cases h : i.folder ∈ ids <;> simp [markImageIf, h]

/-- The subtree query reads only owners and paths, which marking does not
change, so re-running it on the marked collection returns the same ids. -/
theorem subtreeIds_mark (u : Nat) (root : Folder) (s : Store) (ids : List Nat) (t : Nat) :
    subtreeIds u (markFolderIf ids t root)
      ⟨s.folders.map (markFolderIf ids t), s.images.map (markImageIf ids t)⟩ =
    subtreeIds u root s := by
  unfold subtreeIds
  rw [markFolderIf_path]
  rw [filter_map_of_pred (markFolderIf ids t)
    (fun f => f.user == u && root.path.isPrefixOf f.path) s.folders
    (fun f => by unfold markFolderIf; split <;> rfl)]
  rw [List.map_map]
  apply List.map_congr_left
  intro f _
  exact markFolderIf_id ids t f

/-- **C4 counterexample.** Soft delete is not a no-op on an already-deleted
folder: the second call restamps `deletedAt` with its own current time, so
two calls in succession (times 1 then 2) leave a different end state than
one call. -/
theorem c4_counterexample :
    softDeleteFolder 0 0 1 rootAStore =
      .ok ⟨[⟨0, 0, chars "A", none, chars "A", true, some 1⟩], []⟩ ∧
    softDeleteFolder 0 0 2 ⟨[⟨0, 0, chars "A", none, chars "A", true, some 1⟩], []⟩ =
      .ok ⟨[⟨0, 0, chars "A", none, chars "A", true, some 2⟩], []⟩ ∧
    (⟨[⟨0, 0, chars "A", none, chars "A", true, some 2⟩], []⟩ : Store) ≠
      ⟨[⟨0, 0, chars "A", none, chars "A", true, some 1⟩], []⟩ :=
  ⟨by rfl, by rfl, by decide⟩

/-- **C4 (amended).** A second soft delete of the same folder always
succeeds and, when stamped with the same timestamp as the first, reproduces
exactly the first call's end state; the only deviation from the claim is
`deletedAt`, which a later second call restamps with its own time. -/
theorem c4_soft_delete_idempotent_same_time :
    ∀ (s s₁ : Store) (u fid t : Nat),
    softDeleteFolder u fid t s = .ok s₁ →
    softDeleteFolder u fid t s₁ = .ok s₁ := by
  intro s s₁ u fid t h
  unfold softDeleteFolder at h
  cases hfind : s.folders.find? (fun f => f.id == fid && f.user == u) with
  | none => rw [hfind] at h; simp at h
  | some folder =>
    rw [hfind, Except.ok.injEq] at h
    subst h
    unfold softDeleteFolder
    have hfind2 : (s.folders.map (markFolderIf (subtreeIds u folder s) t)).find?
        (fun f => f.id == fid && f.user == u)
        = some (markFolderIf (subtreeIds u folder s) t folder) := by
      rw [find?_map_of_pred (markFolderIf (subtreeIds u folder s) t)
        (fun f => f.id == fid && f.user == u) s.folders
        (fun f => by unfold markFolderIf; split <;> rfl), hfind]
      rfl
    simp only [hfind2, subtreeIds_mark, Except.ok.injEq]
    congr 1
    · rw [List.map_map]
      apply List.map_congr_left
      intro f _
      exact markFolderIf_idem _ _ f
    · rw [List.map_map]
      apply List.map_congr_left
      intro i _
      exact markImageIf_idem _ _ i

/-- Witness for the amended C4: re-running the soft delete of folder 0 at
the same timestamp on its own output reproduces that output. -/
theorem c4_soft_delete_idempotent_same_time_witness :
    softDeleteFolder 0 0 1 ⟨[⟨0, 0, chars "A", none, chars "A", true, some 1⟩], []⟩ =
      .ok ⟨[⟨0, 0, chars "A", none, chars "A", true, some 1⟩], []⟩ :=
  c4_soft_delete_idempotent_same_time rootAStore
    ⟨[⟨0, 0, chars "A", none, chars "A", true, some 1⟩], []⟩ 0 0 1 (by rfl)

/-! ## C8: soft delete then restore -/

theorem folder_clear_eq_self {f : Folder} (h1 : f.isDeleted = false) (h2 : f.deletedAt = none) :
    { f with isDeleted := false, deletedAt := none } = f := by
  cases f
  simp_all

theorem get_of_eq_map_map {α : Type} {l' l : List α} (f g : α → α)
    (h : l' = (l.map f).map g) (i : Nat) (hi : i < l.length) (hi' : i < l'.length) :
    l'.get ⟨i, hi'⟩ = g (f (l.get ⟨i, hi⟩)) := by
  subst h
  simp

/-- Anatomy of a successful folder restore. -/
theorem restoreFolder_ok_elim {u fid : Nat} {s s' : Store} {fr : Folder}
    (h : restoreFolder u fid s = .ok (s', fr)) :
    ∃ f₀, s.folders.find? (fun f => f.id == fid && f.user == u && f.isDeleted) = some f₀ ∧
      s'.folders = updateFirst (fun f => f.id == fid && f.user == u && f.isDeleted)
        (fun f => { f with isDeleted := false, deletedAt := none }) s.folders ∧
      s'.images = s.images.map (fun i =>
        if i.folder == fid && i.user == u && i.isDeleted then
          { i with isDeleted := false, deletedAt := none } else i) ∧
      fr = { f₀ with isDeleted := false, deletedAt := none } := by
  unfold restoreFolder at h
  split at h
  · simp at h
  · rename_i f₀ hfind
    rw [Except.ok.injEq, Prod.mk.injEq] at h
    exact ⟨f₀, hfind, by rw [← h.1], by rw [← h.1], h.2.symm⟩

/-- **C8 counterexample.** The round-trip fails for an image that was already
individually trashed before the folder's soft delete: soft delete restamps
it, restore un-trashes it, so its pre-delete fields `(isDeleted = true,
deletedAt = 5)` come back as `(false, none)`. -/
theorem c8_counterexample :
    softDeleteFolder 0 0 10 ⟨[⟨0, 0, chars "A", none, chars "A", false, none⟩],
        [⟨0, 0, 0, chars "p", true, some 5⟩]⟩ =
      .ok ⟨[⟨0, 0, chars "A", none, chars "A", true, some 10⟩],
           [⟨0, 0, 0, chars "p", true, some 10⟩]⟩ ∧
    restoreFolder 0 0 ⟨[⟨0, 0, chars "A", none, chars "A", true, some 10⟩],
        [⟨0, 0, 0, chars "p", true, some 10⟩]⟩ =
      .ok (⟨[⟨0, 0, chars "A", none, chars "A", false, none⟩],
            [⟨0, 0, 0, chars "p", false, none⟩]⟩,
           ⟨0, 0, chars "A", none, chars "A", false, none⟩) ∧
    (⟨0, 0, 0, chars "p", false, none⟩ : Image) ≠ ⟨0, 0, 0, chars "p", true, some 5⟩ :=
  ⟨by rfl, by rfl, by decide⟩

/-- **C8 (amended).** For a folder that is currently active with no deletion
stamp and whose direct images are all owned by the caller, active and
unstamped, soft delete followed by restore returns the folder row and every
direct image row to exactly its pre-delete state.  (The unamended claim
fails when the folder or one of its direct images was already trashed: the
pre-existing `deletedAt` stamp is lost, as the counterexample shows.) -/
theorem c8_soft_delete_restore_roundtrip :
    ∀ (s s₁ s₂ : Store) (fr f₀ : Folder) (u fid t : Nat),
    idsUnique s →
    s.folders.find? (fun f => f.id == fid && f.user == u) = some f₀ →
    f₀.isDeleted = false → f₀.deletedAt = none →
    (∀ im ∈ s.images, im.folder = fid →
      im.user = u ∧ im.isDeleted = false ∧ im.deletedAt = none) →
    softDeleteFolder u fid t s = .ok s₁ →
    restoreFolder u fid s₁ = .ok (s₂, fr) →
    s₂.folders.length = s.folders.length ∧
    s₂.images.length = s.images.length ∧
    (∀ i (hi : i < s.folders.length) (hi₂ : i < s₂.folders.length),
      (s.folders.get ⟨i, hi⟩).id = fid →
      s₂.folders.get ⟨i, hi₂⟩ = s.folders.get ⟨i, hi⟩) ∧
    (∀ j (hj : j < s.images.length) (hj₂ : j < s₂.images.length),
      (s.images.get ⟨j, hj⟩).folder = fid →
      s₂.images.get ⟨j, hj₂⟩ = s.images.get ⟨j, hj⟩) := by
  intro s s₁ s₂ fr f₀ u fid t hids hfind hdel hdat himgs hsoft hres
  unfold softDeleteFolder at hsoft
  rw [hfind, Except.ok.injEq] at hsoft
  subst hsoft
  have hmem := List.mem_of_find?_eq_some hfind
  have hp := List.find?_some hfind
  simp only [Bool.and_eq_true, beq_iff_eq] at hp
  obtain ⟨hfid, huser⟩ := hp
  have hfidmem : fid ∈ subtreeIds u f₀ s := by
    unfold subtreeIds
    rw [← hfid]
    apply List.mem_map.mpr
    refine ⟨f₀, ?_, rfl⟩
    apply List.mem_filter.mpr
    refine ⟨hmem, ?_⟩
    simp only [Bool.and_eq_true, beq_iff_eq]
    exact ⟨huser, isPrefixOf_eq_true (List.prefix_refl _)⟩
  obtain ⟨g₀, hgfind, hs2f, hs2i, hfr⟩ := restoreFolder_ok_elim hres
  have hpair2 : (s.folders.map (markFolderIf (subtreeIds u f₀ s) t)).Pairwise
      (fun x y => ¬((x.id == fid && x.user == u && x.isDeleted) = true ∧
                    (y.id == fid && y.user == u && y.isDeleted) = true)) := by
    refine List.Pairwise.map _ ?_ hids
    intro a b hab hcon
    obtain ⟨ha, hb⟩ := hcon
    simp only [Bool.and_eq_true, beq_iff_eq, markFolderIf_id, markFolderIf_user] at ha hb
    exact hab (ha.1.1.trans hb.1.1.symm)
  rw [show (⟨s.folders.map (markFolderIf (subtreeIds u f₀ s) t),
      s.images.map (markImageIf (subtreeIds u f₀ s) t)⟩ : Store).folders =
      s.folders.map (markFolderIf (subtreeIds u f₀ s) t) from rfl] at hs2f
  rw [updateFirst_eq_map _ _ _ hpair2] at hs2f
  rw [show (⟨s.folders.map (markFolderIf (subtreeIds u f₀ s) t),
      s.images.map (markImageIf (subtreeIds u f₀ s) t)⟩ : Store).images =
      s.images.map (markImageIf (subtreeIds u f₀ s) t) from rfl] at hs2i
  refine ⟨by rw [hs2f]; simp, by rw [hs2i]; simp, ?_, ?_⟩
  · intro i hi hi₂ hgid
    have hgmem : s.folders.get ⟨i, hi⟩ ∈ s.folders := List.get_mem s.folders i hi
    have hge : s.folders.get ⟨i, hi⟩ = f₀ :=
      idsUnique_mem hids _ hgmem f₀ hmem (hgid.trans hfid.symm)
    rw [get_of_eq_map_map _ _ hs2f i hi hi₂, hge]
    have hcont : (subtreeIds u f₀ s).contains f₀.id = true := by
      rw [hfid]
      exact List.elem_iff.mpr hfidmem
    have hmark : markFolderIf (subtreeIds u f₀ s) t f₀ =
        { f₀ with isDeleted := true, deletedAt := some t } := by
      unfold markFolderIf; rw [if_pos hcont]
    rw [hmark]
    obtain ⟨i₀, u₀, n₀, pf₀, pa₀, d₀, da₀⟩ := f₀
    simp only at hfid huser hdel hdat
    subst hfid
    subst huser
    subst hdel
    subst hdat
    simp
  · intro j hj hj₂ hjf
    have himem : s.images.get ⟨j, hj⟩ ∈ s.images := List.get_mem s.images j hj
    obtain ⟨hiu, hidel, hidat⟩ := himgs _ himem hjf
    rw [get_of_eq_map_map _ _ hs2i j hj hj₂]
    generalize him : s.images.get ⟨j, hj⟩ = im at hjf hiu hidel hidat
    have hcont : (subtreeIds u f₀ s).contains im.folder = true := by
      rw [hjf]
      exact List.elem_iff.mpr hfidmem
    have hmark : markImageIf (subtreeIds u f₀ s) t im =
        { im with isDeleted := true, deletedAt := some t } := by
      unfold markImageIf; rw [if_pos hcont]
    rw [hmark]
    obtain ⟨i₀, u₀, fo₀, pid₀, d₀, da₀⟩ := im
    simp only at hjf hiu hidel hidat
    subst hjf
    subst hiu
    subst hidel
    subst hidat
    simp

/-- Owner 0's active folder `"A"` with one active image directly inside. -/
def activeAStore : Store :=
  ⟨[⟨0, 0, chars "A", none, chars "A", false, none⟩],
   [⟨0, 0, 0, chars "p", false, none⟩]⟩

/-- Witness for the amended C8: soft delete at time 7 then restore brings
folder 0 of `activeAStore` and its direct image back to their original
rows. -/
theorem c8_soft_delete_restore_roundtrip_witness :
    (⟨[⟨0, 0, chars "A", none, chars "A", false, none⟩],
      [⟨0, 0, 0, chars "p", false, none⟩]⟩ : Store).folders.get ⟨0, by decide⟩ =
      activeAStore.folders.get ⟨0, by decide⟩ ∧
    (⟨[⟨0, 0, chars "A", none, chars "A", false, none⟩],
      [⟨0, 0, 0, chars "p", false, none⟩]⟩ : Store).images.get ⟨0, by decide⟩ =
      activeAStore.images.get ⟨0, by decide⟩ := by
  have h := c8_soft_delete_restore_roundtrip activeAStore
    ⟨[⟨0, 0, chars "A", none, chars "A", true, some 7⟩],
     [⟨0, 0, 0, chars "p", true, some 7⟩]⟩
    ⟨[⟨0, 0, chars "A", none, chars "A", false, none⟩],
     [⟨0, 0, 0, chars "p", false, none⟩]⟩
    ⟨0, 0, chars "A", none, chars "A", false, none⟩
    ⟨0, 0, chars "A", none, chars "A", false, none⟩
    0 0 7 (by decide) (by rfl) rfl rfl (by decide) (by rfl) (by rfl)
  exact ⟨h.2.2.1 0 (by decide) (by decide) rfl, h.2.2.2 0 (by decide) (by decide) rfl⟩

/-! ## C2: the materialized-path invariant -/

theorem renUpd1_id (fid : Nat) (nm np : Str) (f : Folder) : (renUpd1 fid nm np f).id = f.id := by
  unfold renUpd1; split <;> rfl

theorem renUpd1_user (fid : Nat) (nm np : Str) (f : Folder) :
    (renUpd1 fid nm np f).user = f.user := by
  unfold renUpd1; split <;> rfl

theorem renUpd1_parentFolder (fid : Nat) (nm np : Str) (f : Folder) :
    (renUpd1 fid nm np f).parentFolder = f.parentFolder := by
  unfold renUpd1; split <;> rfl

theorem renUpd2_id (u : Nat) (op np : Str) (f : Folder) : (renUpd2 u op np f).id = f.id := by
  unfold renUpd2; split <;> rfl

theorem renUpd2_user (u : Nat) (op np : Str) (f : Folder) :
    (renUpd2 u op np f).user = f.user := by
  unfold renUpd2; split <;> rfl

theorem renUpd2_parentFolder (u : Nat) (op np : Str) (f : Folder) :
    (renUpd2 u op np f).parentFolder = f.parentFolder := by
  unfold renUpd2; split <;> rfl

/-- Stripping a common `prefixSegment ++ "/"` from two paths one of which is
a prefix of the other. -/
theorem prefix_strip_seg {a b m : Str} (h : (a ++ sep :: b) <+: (a ++ sep :: m)) : b <+: m := by
  have e1 : a ++ sep :: b = (a ++ [sep]) ++ b := by simp
  have e2 : a ++ sep :: m = (a ++ [sep]) ++ m := by simp
  rw [e1, e2] at h
  exact (List.prefix_append_right_inj (a ++ [sep])).mp h

theorem sep_mem_of_seg {l m : Str} (h : (l ++ [sep]) <+: m) : sep ∈ m := by
  obtain ⟨t, ht⟩ := h
  rw [← ht]
  simp

/-- Appending a fresh, well-linked folder row preserves the path
invariant. -/
theorem pathInv_snoc {s : Store} {nf : Folder} (imgs : List Image)
    (hinv : pathInv s)
    (hfresh : ∀ f ∈ s.folders, f.id ≠ nf.id)
    (h1 : nf.parentFolder = none → nf.path = nf.name)
    (h2 : nf.parentFolder = none ∨ ∃ p ∈ s.folders, nf.parentFolder = some p.id)
    (h3 : ∀ p ∈ s.folders, nf.parentFolder = some p.id →
      nf.path = computePath nf.name (some p.path)) :
    pathInv ⟨s.folders ++ [nf], imgs⟩ := by
  intro f hf
  rcases List.mem_append.mp hf with hf | hf
  · obtain ⟨c1, c2, c3⟩ := hinv f hf
    refine ⟨c1, ?_, ?_⟩
    · rcases c2 with hc | ⟨p, hp, hpe⟩
      · exact Or.inl hc
      · exact Or.inr ⟨p, List.mem_append.mpr (Or.inl hp), hpe⟩
    · intro p hp hpe
      rcases List.mem_append.mp hp with hp | hp
      · exact c3 p hp hpe
      · have hpnf : p = nf := by simpa using hp
        subst hpnf
        rcases c2 with hc | ⟨q, hq, hqe⟩
        · rw [hc] at hpe; exact absurd hpe (by simp)
        · rw [hqe] at hpe
          have hqp : q.id = p.id := by injection hpe
          exact absurd hqp (hfresh q hq)
  · have hfnf : f = nf := by simpa using hf
    subst hfnf
    refine ⟨h1, ?_, ?_⟩
    · rcases h2 with hc | ⟨p, hp, hpe⟩
      · exact Or.inl hc
      · exact Or.inr ⟨p, List.mem_append.mpr (Or.inl hp), hpe⟩
    · intro p hp hpe
      rcases List.mem_append.mp hp with hp | hp
      · exact h3 p hp hpe
      · have hpnf : p = f := by simpa using hp
        subst hpnf
        rcases h2 with hc | ⟨q, hq, hqe⟩
        · rw [hc] at hpe; exact absurd hpe (by simp)
        · rw [hqe] at hpe
          have hqp : q.id = p.id := by injection hpe
          exact absurd hqp (hfresh q hq)

/-- The reachable store that breaks C2: create root `"A"`, create a root
folder literally named `"A/B"`, then rename `"A"` to `"C"`. -/
def slashNameStore : Store :=
  ⟨[⟨0, 0, chars "A", none, chars "A", false, none⟩,
    ⟨1, 0, chars "A/B", none, chars "A/B", false, none⟩], []⟩

end FolderApp
